import Mathlib

/-!
Verification of the VileHvH CS:GO server provisioning pipeline.

This file gives a shallow embedding, in Lean, of the parts of the Python
sources that the specification's claims are about:

* `src/server_config.py` — `ServerConfigurator.create_hvh_config` and
  `ServerConfigurator.set_legacy_version`;
* `src/steamcmd_installer.py` — `SteamCMDInstaller.is_installed`,
  `SteamCMDInstaller.install` and its per-platform strategies;
* `src/metamod_sourcemod_installer.py` — `MetamodSourcemodInstaller`,
  in particular `install_metamod`, `install_sourcemod`, `install_all`
  and `_fix_metamod_architecture`;
* `plugin_manager.py` — `PluginManager.install_plugin_from_directory`,
  `disable_plugin`, `enable_plugin`;
* `scripts/install_plugins.py` — `clone_from_github` and `install_plugin`.

The filesystem is modelled as an association list from paths (lists of
path components) to nodes (files with content and abstract metadata,
directories, and symbolic links).  External effects that are outside the
program — network downloads, archive contents, subprocess exit codes —
are supplied by explicit oracle records, so each embedded function is a
total, computable function of the pre-state and the oracle.
-/

namespace VileHvH

/-- A filesystem path, as a list of path components. -/
abbrev FsPath := List String

/-- A filesystem node: a regular file (with content and an abstract
metadata value standing for timestamps/permissions), a directory, or a
symbolic link (storing its target, as the source creates relative links). -/
inductive Node where
  | file (content : String) (meta : Nat)
  | dir
  | symlink (target : String)
deriving DecidableEq

/-- A filesystem state: an association list from paths to nodes.  Lookup
takes the first entry with the given key. -/
abbrev FS := List (FsPath × Node)

/-- Look up the node at a path (first matching entry). -/
def lookupFS : FS → FsPath → Option Node
  | [], _ => none
  | e :: fs, p => if e.1 = p then some e.2 else lookupFS fs p

/-- `Path.exists()` / `os.path.exists`: the path has a node. -/
def pexists (fs : FS) (p : FsPath) : Bool :=
  (lookupFS fs p).isSome

/-- Write a node at a path, replacing the first entry with that key or
appending a new entry. -/
def fsWrite : FS → FsPath → Node → FS
  | [], p, n => [(p, n)]
  | e :: fs, p, n => if e.1 = p then (p, n) :: fs else e :: fsWrite fs p n

/-- Remove every entry whose key is exactly `p` (`Path.unlink`). -/
def fsErase : FS → FsPath → FS
  | [], _ => []
  | e :: fs, p => if e.1 = p then fsErase fs p else e :: fsErase fs p

/-- Boolean path-prefix test on component lists. -/
def isPref : FsPath → FsPath → Bool
  | [], _ => true
  | _, [] => false
  | a :: as, b :: bs => a == b && isPref as bs

/-- Remove a path and everything below it (`shutil.rmtree`). -/
def fsRmtree : FS → FsPath → FS
  | [], _ => []
  | e :: fs, p => if isPref p e.1 then fsRmtree fs p else e :: fsRmtree fs p

/-- All non-empty prefixes of a path, shortest first: the chain of
directories `mkdir(parents=True)` has to ensure. -/
def fsAncestors : FsPath → List FsPath
  | [] => []
  | a :: as => [a] :: (fsAncestors as).map (a :: ·)

/-- One step of `mkdir(parents=True, exist_ok=True)`: create the
directory if the path has no node yet, otherwise leave the node alone. -/
def mkdirStep (fs : FS) (q : FsPath) : FS :=
  if pexists fs q then fs else fsWrite fs q .dir

/-- `p.mkdir(parents=True, exist_ok=True)`: ensure `p` and all its
ancestors exist, creating missing ones as directories.  (The `OSError`
raised when an ancestor is a regular file is not modelled; no claim
exercises that case.) -/
def fsMkdirP (fs : FS) (p : FsPath) : FS :=
  (fsAncestors p).foldl mkdirStep fs

/-- `Path.rename`: move the node at `src` to `dst` (replacing `dst`). -/
def fsRename (fs : FS) (src dst : FsPath) : FS :=
  match lookupFS fs src with
  | some n => fsWrite (fsErase fs src) dst n
  | none => fs

/-- Read the content of a regular file at `p`, if there is one. -/
def readFile (fs : FS) (p : FsPath) : Option String :=
  match lookupFS fs p with
  | some (.file c _) => some c
  | _ => none

theorem lookupFS_fsWrite_self (fs : FS) (p : FsPath) (n : Node) :
    lookupFS (fsWrite fs p n) p = some n := by
  induction fs with
  | nil => simp [fsWrite, lookupFS]
  | cons e fs ih =>
      by_cases h : e.1 = p <;> simp [fsWrite, lookupFS, h, ih]

theorem lookupFS_fsWrite_ne (fs : FS) (p q : FsPath) (n : Node) (h : q ≠ p) :
    lookupFS (fsWrite fs p n) q = lookupFS fs q := by
  have hpq : p ≠ q := fun h' => h h'.symm
  induction fs with
  | nil => simp [fsWrite, lookupFS, hpq]
  | cons e fs ih =>
      by_cases h1 : e.1 = p
      · subst h1
        simp [fsWrite, lookupFS, hpq]
      · simp only [fsWrite, if_neg h1]
        by_cases h2 : e.1 = q <;> simp [lookupFS, h2, ih]

theorem lookupFS_fsErase_self (fs : FS) (p : FsPath) :
    lookupFS (fsErase fs p) p = none := by
  induction fs with
  | nil => rfl
  | cons e fs ih =>
      by_cases h : e.1 = p <;> simp [fsErase, h, lookupFS, ih]

theorem lookupFS_fsErase_ne (fs : FS) (p q : FsPath) (h : q ≠ p) :
    lookupFS (fsErase fs p) q = lookupFS fs q := by
  induction fs with
  | nil => rfl
  | cons e fs ih =>
      by_cases h1 : e.1 = p
      · have h2 : e.1 ≠ q := fun h' => h (h' ▸ h1)
        simp [fsErase, h1, lookupFS, h2, ih, Ne.symm h, h]
      · by_cases h2 : e.1 = q <;> simp [fsErase, h1, lookupFS, h2, ih, Ne.symm h, h]

theorem pexists_fsWrite_mono (fs : FS) (p q : FsPath) (n : Node)
    (h : pexists fs p = true) : pexists (fsWrite fs q n) p = true := by
  by_cases hqp : p = q
  · subst hqp
    simp [pexists, lookupFS_fsWrite_self]
  · rwa [pexists, lookupFS_fsWrite_ne fs q p n hqp]

theorem lookupFS_mkdirStep_of_some (fs : FS) (p q : FsPath) (n : Node)
    (h : lookupFS fs p = some n) : lookupFS (mkdirStep fs q) p = some n := by
  unfold mkdirStep
  by_cases hq : pexists fs q = true
  · simp [hq, h]
  · simp only [hq, if_neg, Bool.false_eq_true, ite_false]
    have hpq : p ≠ q := by
      intro he
      subst he
      simp [pexists, h] at hq
    rwa [lookupFS_fsWrite_ne fs q p .dir hpq]

theorem pexists_mkdirStep_mono (fs : FS) (p q : FsPath)
    (h : pexists fs p = true) : pexists (mkdirStep fs q) p = true := by
  unfold mkdirStep
  by_cases hq : pexists fs q = true
  · simp [hq, h]
  · simp only [hq, Bool.false_eq_true, ite_false]
    exact pexists_fsWrite_mono fs p q .dir h

theorem lookupFS_foldl_mkdirStep_of_some (qs : List FsPath) (fs : FS) (p : FsPath) (n : Node)
    (h : lookupFS fs p = some n) : lookupFS (qs.foldl mkdirStep fs) p = some n := by
  induction qs generalizing fs with
  | nil => exact h
  | cons q qs ih => exact ih (mkdirStep fs q) (lookupFS_mkdirStep_of_some fs p q n h)

theorem lookupFS_fsMkdirP_of_some (fs : FS) (p q : FsPath) (n : Node)
    (h : lookupFS fs p = some n) : lookupFS (fsMkdirP fs q) p = some n :=
  lookupFS_foldl_mkdirStep_of_some (fsAncestors q) fs p n h

theorem pexists_foldl_mkdirStep_mono (qs : List FsPath) (fs : FS) (p : FsPath)
    (h : pexists fs p = true) : pexists (qs.foldl mkdirStep fs) p = true := by
  induction qs generalizing fs with
  | nil => exact h
  | cons q qs ih => exact ih (mkdirStep fs q) (pexists_mkdirStep_mono fs p q h)

theorem pexists_foldl_mkdirStep_of_mem (qs : List FsPath) (fs : FS) (q : FsPath)
    (h : q ∈ qs) : pexists (qs.foldl mkdirStep fs) q = true := by
  induction qs generalizing fs with
  | nil => cases h
  | cons q' qs ih =>
      rcases List.mem_cons.mp h with h | h
      · subst h
        refine pexists_foldl_mkdirStep_mono qs (mkdirStep fs q) q ?_
        unfold mkdirStep
        by_cases hq : pexists fs q = true
        · simp [hq]
        · rw [if_neg hq]
          simp [pexists, lookupFS_fsWrite_self]
      · exact ih (mkdirStep fs q') h

theorem pexists_fsMkdirP_mono (fs : FS) (p q : FsPath)
    (h : pexists fs p = true) : pexists (fsMkdirP fs q) p = true :=
  pexists_foldl_mkdirStep_mono (fsAncestors q) fs p h

/-- `isPref p q` holds exactly when `q` extends `p` by some suffix. -/
theorem isPref_iff (p q : FsPath) : isPref p q = true ↔ ∃ t, p ++ t = q := by
  induction p generalizing q with
  | nil => simp [isPref]
  | cons a as ih =>
      cases q with
      | nil =>
          simp only [isPref, Bool.false_eq_true, false_iff]
          rintro ⟨t, ht⟩
          cases ht
      | cons b bs =>
          simp only [isPref, Bool.and_eq_true, beq_iff_eq, ih, List.cons_append,
            List.cons.injEq]
          constructor
          · rintro ⟨hab, t, ht⟩
            exact ⟨t, hab, ht⟩
          · rintro ⟨t, hab, ht⟩
            exact ⟨hab, t, ht⟩

theorem isPref_append (p t : FsPath) : isPref p (p ++ t) = true :=
  (isPref_iff p (p ++ t)).mpr ⟨t, rfl⟩

theorem isPref_refl (p : FsPath) : isPref p p = true :=
  (isPref_iff p p).mpr ⟨[], by simp⟩

/-- Every non-empty prefix of `p` is among the ancestors of `p`. -/
theorem mem_fsAncestors (p q : FsPath) (hq : q ≠ []) (h : isPref q p = true) :
    q ∈ fsAncestors p := by
  induction p generalizing q with
  | nil =>
      cases q with
      | nil => exact absurd rfl hq
      | cons b bs => simp [isPref] at h
  | cons a as ih =>
      cases q with
      | nil => exact absurd rfl hq
      | cons b bs =>
          simp only [isPref, Bool.and_eq_true, beq_iff_eq] at h
          obtain ⟨hab, hpre⟩ := h
          subst hab
          cases bs with
          | nil => simp [fsAncestors]
          | cons c cs =>
              simp only [fsAncestors, List.mem_cons, List.mem_map]
              right
              exact ⟨c :: cs, ih (c :: cs) (by simp) hpre, rfl⟩

theorem pexists_fsMkdirP_of_pref (fs : FS) (p q : FsPath) (hq : q ≠ [])
    (h : isPref q p = true) : pexists (fsMkdirP fs p) q = true :=
  pexists_foldl_mkdirStep_of_mem (fsAncestors p) fs q (mem_fsAncestors p q hq h)

theorem lookupFS_fsRmtree_of_pref (fs : FS) (p q : FsPath) (h : isPref p q = true) :
    lookupFS (fsRmtree fs p) q = none := by
  induction fs with
  | nil => rfl
  | cons e fs ih =>
      by_cases h1 : isPref p e.1
      · simp [fsRmtree, h1, ih]
      · have h2 : e.1 ≠ q := by
          intro he
          rw [he] at h1
          exact h1 h
        simp [fsRmtree, h1, lookupFS, h2, ih]

theorem lookupFS_fsRmtree_of_not_pref (fs : FS) (p q : FsPath) (h : isPref p q = false) :
    lookupFS (fsRmtree fs p) q = lookupFS fs q := by
  induction fs with
  | nil => rfl
  | cons e fs ih =>
      by_cases h1 : isPref p e.1
      · have h2 : e.1 ≠ q := by
          intro he
          rw [he] at h1
          simp [h] at h1
        simp [fsRmtree, h1, lookupFS, h2, ih]
      · by_cases h2 : e.1 = q <;> simp [fsRmtree, h1, lookupFS, h2, ih, h]

/-- Model of Python's `str.startswith`: the pattern's characters are a
prefix of the string's characters. -/
def strStartsWith (s pre : String) : Bool :=
  pre.data.isPrefixOf s.data

/-- `str.splitlines`-style view used for `readlines`: file content as a
list of lines (newline terminators abstracted away). -/
def splitLines (s : String) : List String :=
  s.splitOn "\x0a"

/-- Inverse view used for `writelines`. -/
def joinLines (ls : List String) : String :=
  String.intercalate "\x0a" ls

namespace ServerConfigurator

/-- `ServerConfigurator.CSGO_LEGACY_VERSION`. -/
def CSGO_LEGACY_VERSION : String := "2000258"

/-- `self.csgo_dir = csgo_install_dir / "csgo"`. -/
def csgo_dir (root : FsPath) : FsPath := root ++ ["csgo"]

/-- `self.cfg_dir = self.csgo_dir / "cfg"`. -/
def cfg_dir (root : FsPath) : FsPath := root ++ ["csgo", "cfg"]

/-- `self.steam_inf = self.csgo_dir / "steam.inf"`. -/
def steam_inf (root : FsPath) : FsPath := root ++ ["csgo", "steam.inf"]

/--
`ServerConfigurator.create_hvh_config` (src/src/server_config.py,
lines 44-70).  The generated configuration text produced by
`_generate_hvh_config` is opaque to the claims, so it is taken here as
the `document` argument (the spec's `writeConfig(document)`).  The
function ensures the cfg directory, backs up an existing `server.cfg`
to `server.cfg.backup` (via `shutil.copy`, which preserves the byte
content), and then writes the new document.  If `server.cfg` exists but
is not a regular file, `shutil.copy` raises and the handler returns
`False`.
-/
def create_hvh_config (fs : FS) (root : FsPath) (document : String) : FS × Bool :=
  let fs1 := fsMkdirP fs (cfg_dir root)
  let server_cfg := cfg_dir root ++ ["server.cfg"]
  match lookupFS fs1 server_cfg with
  | some (.file c _) =>
      let fs2 := fsWrite fs1 (cfg_dir root ++ ["server.cfg.backup"]) (.file c 0)
      (fsWrite fs2 server_cfg (.file document 0), true)
  | some _ => (fs1, false)
  | none => (fsWrite fs1 server_cfg (.file document 0), true)

/--
The line-rewriting loop of `ServerConfigurator.set_legacy_version`
(lines 300-314): a line starting with `ClientVersion=` is replaced by
`ClientVersion=2000258` (recording that the client key was found), an
other line starting with `ServerVersion=` is replaced likewise, and any
other line is kept.  Returns the rewritten lines together with the
`client_version_modified` and `server_version_modified` flags.
-/
def patchVersionLines : List String → List String × Bool × Bool
  | [] => ([], false, false)
  | l :: ls =>
      let r := patchVersionLines ls
      if strStartsWith l "ClientVersion=" then
        (("ClientVersion=" ++ CSGO_LEGACY_VERSION) :: r.1, true, r.2.2)
      else if strStartsWith l "ServerVersion=" then
        (("ServerVersion=" ++ CSGO_LEGACY_VERSION) :: r.1, r.2.1, true)
      else (l :: r.1, r.2.1, r.2.2)

/--
`ServerConfigurator.set_legacy_version`, lines level (lines 300-323):
rewrite the two version keys in place, then append `ClientVersion=` and
`ServerVersion=` lines (in that order) for any key that was not found.
-/
def set_legacy_version_lines (ls : List String) : List String :=
  let r := patchVersionLines ls
  let ls1 := if r.2.1 then r.1 else r.1 ++ ["ClientVersion=" ++ CSGO_LEGACY_VERSION]
  if r.2.2 then ls1 else ls1 ++ ["ServerVersion=" ++ CSGO_LEGACY_VERSION]

/--
`ServerConfigurator.set_legacy_version` (lines 267-336), filesystem
level: if `steam.inf` is missing the function logs an error and returns
`False` without touching the filesystem; otherwise it reads the file,
copies it to `steam.inf.backup`, rewrites the lines and writes the
result back.  (Reading a non-regular-file node raises in Python and the
handler returns `False` before any write; the backup copy happens after
the successful read.)
-/
def set_legacy_version (fs : FS) (root : FsPath) : FS × Bool :=
  match lookupFS fs (steam_inf root) with
  | some (.file c _) =>
      let fs1 := fsWrite fs (csgo_dir root ++ ["steam.inf.backup"]) (.file c 0)
      (fsWrite fs1 (steam_inf root)
        (.file (joinLines (set_legacy_version_lines (splitLines c))) 0), true)
  | some _ => (fs, false)
  | none => (fs, false)

/-- The effect of one pass of the rewriting loop on a single line. -/
def rewriteVersionLine (l : String) : String :=
  if strStartsWith l "ClientVersion=" then "ClientVersion=" ++ CSGO_LEGACY_VERSION
  else if strStartsWith l "ServerVersion=" then "ServerVersion=" ++ CSGO_LEGACY_VERSION
  else l

theorem patchVersionLines_eq (ls : List String) :
    patchVersionLines ls =
      (ls.map rewriteVersionLine,
       ls.any (fun l => strStartsWith l "ClientVersion="),
       ls.any (fun l => !(strStartsWith l "ClientVersion=") && strStartsWith l "ServerVersion=")) := by
  induction ls with
  | nil => rfl
  | cons l ls ih =>
      cases hc : strStartsWith l "ClientVersion=" <;>
        cases hs : strStartsWith l "ServerVersion=" <;>
          simp [patchVersionLines, rewriteVersionLine, ih, hc, hs]

theorem strStartsWith_clientLine_server :
    strStartsWith ("ClientVersion=" ++ CSGO_LEGACY_VERSION) "ServerVersion=" = false := by
  decide

theorem strStartsWith_serverLine_server :
    strStartsWith ("ServerVersion=" ++ CSGO_LEGACY_VERSION) "ServerVersion=" = true := by
  decide

theorem set_legacy_version_lines_closed_form (ls : List String)
    (hc : 0 < ls.countP (fun l => strStartsWith l "ClientVersion="))
    (hs : ∀ l ∈ ls, strStartsWith l "ServerVersion=" = false) :
    set_legacy_version_lines ls =
      ls.map rewriteVersionLine ++ ["ServerVersion=" ++ CSGO_LEGACY_VERSION] := by
  unfold set_legacy_version_lines
  rw [patchVersionLines_eq]
  have h1 : ls.any (fun l => strStartsWith l "ClientVersion=") = true := by
    rw [List.any_eq_true]
    obtain ⟨a, ha, hpa⟩ := List.countP_pos_iff.mp hc
    exact ⟨a, ha, hpa⟩
  have h2 : ls.any
      (fun l => !(strStartsWith l "ClientVersion=") && strStartsWith l "ServerVersion=") = false := by
    rw [List.any_eq_false]
    intro l hl
    simp [hs l hl]
  simp [h1, h2]

/--
Claim C1: for a version descriptor containing (exactly) one
`ClientVersion=` line and no `ServerVersion=` line, `set_legacy_version`
produces lines in which: the length grew by exactly one, exactly one
line starts with `ServerVersion=` and it is the appended
`ServerVersion=2000258` final line, the `ClientVersion=` line is
rewritten to the target value in its original position, and every other
line is unchanged in its original position.
-/
theorem claim_c1_patch_version_descriptor (ls : List String)
    (hc : ls.countP (fun l => strStartsWith l "ClientVersion=") = 1)
    (hs : ∀ l ∈ ls, strStartsWith l "ServerVersion=" = false) :
    (set_legacy_version_lines ls).length = ls.length + 1
    ∧ (set_legacy_version_lines ls).countP (fun l => strStartsWith l "ServerVersion=") = 1
    ∧ (set_legacy_version_lines ls).getLast? = some ("ServerVersion=" ++ CSGO_LEGACY_VERSION)
    ∧ ∀ i (h : i < ls.length),
        (strStartsWith ls[i] "ClientVersion=" = true →
          (set_legacy_version_lines ls)[i]? = some ("ClientVersion=" ++ CSGO_LEGACY_VERSION))
        ∧ (strStartsWith ls[i] "ClientVersion=" = false →
          (set_legacy_version_lines ls)[i]? = some ls[i]) := by
  have key := set_legacy_version_lines_closed_form ls (by omega) hs
  refine ⟨?_, ?_, ?_, ?_⟩
  · rw [key]
    simp
  · rw [key, List.countP_append]
    have hmap : (ls.map rewriteVersionLine).countP
        (fun l => strStartsWith l "ServerVersion=") = 0 := by
      rw [List.countP_eq_zero]
      intro l' hl'
      obtain ⟨l, hl, rfl⟩ := List.mem_map.mp hl'
      unfold rewriteVersionLine
      by_cases hcl : strStartsWith l "ClientVersion=" = true
      · simp [hcl, strStartsWith_clientLine_server]
      · simp [hcl, hs l hl]
    rw [hmap]
    simp [List.countP_cons, strStartsWith_serverLine_server]
  · rw [key]
    exact List.getLast?_concat _
  · intro i h
    have hlt : i < (ls.map rewriteVersionLine).length := by simpa using h
    have hi : (set_legacy_version_lines ls)[i]? = some (rewriteVersionLine ls[i]) := by
      rw [key, List.getElem?_append_left hlt, List.getElem?_map, List.getElem?_eq_getElem h]
      rfl
    have hmem : ls[i] ∈ ls := List.getElem_mem h
    constructor
    · intro hcl
      rw [hi]
      simp only [rewriteVersionLine]
      rw [if_pos hcl]
    · intro hcl
      rw [hi]
      have hsv : strStartsWith ls[i] "ServerVersion=" = false := hs _ hmem
      simp only [rewriteVersionLine]
      rw [if_neg (by simp [hcl]), if_neg (by simp [hsv])]

/-- Witness for claim C1 at a concrete two-line descriptor. -/
theorem claim_c1_patch_version_descriptor_witness :
    (set_legacy_version_lines ["ClientVersion=13", "PatchVersion=13"]).length = 3
    ∧ (set_legacy_version_lines ["ClientVersion=13", "PatchVersion=13"]).countP
        (fun l => strStartsWith l "ServerVersion=") = 1
    ∧ (set_legacy_version_lines ["ClientVersion=13", "PatchVersion=13"]).getLast? =
        some ("ServerVersion=" ++ CSGO_LEGACY_VERSION)
    ∧ (set_legacy_version_lines ["ClientVersion=13", "PatchVersion=13"])[0]? =
        some ("ClientVersion=" ++ CSGO_LEGACY_VERSION)
    ∧ (set_legacy_version_lines ["ClientVersion=13", "PatchVersion=13"])[1]? =
        some "PatchVersion=13" := by
  have h := claim_c1_patch_version_descriptor ["ClientVersion=13", "PatchVersion=13"]
    (by decide) (by decide)
  exact ⟨h.1, h.2.1, h.2.2.1, (h.2.2.2 0 (by decide)).1 (by decide),
    (h.2.2.2 1 (by decide)).2 (by decide)⟩

/--
Claim C2: when `server.cfg` already exists with content `C`,
`create_hvh_config` succeeds, the backup file `server.cfg.backup` holds
the pre-call content `C`, and `server.cfg` holds the newly written
document (the backup is taken before the overwrite).
-/
theorem claim_c2_write_config_backup (fs : FS) (root : FsPath) (document C : String) (m : Nat)
    (h : lookupFS fs (cfg_dir root ++ ["server.cfg"]) = some (.file C m)) :
    (create_hvh_config fs root document).2 = true
    ∧ readFile (create_hvh_config fs root document).1 (cfg_dir root ++ ["server.cfg.backup"]) =
        some C
    ∧ readFile (create_hvh_config fs root document).1 (cfg_dir root ++ ["server.cfg"]) =
        some document := by
  have h1 : lookupFS (fsMkdirP fs (cfg_dir root)) (cfg_dir root ++ ["server.cfg"]) =
      some (.file C m) := lookupFS_fsMkdirP_of_some fs _ _ _ h
  have hne : cfg_dir root ++ ["server.cfg.backup"] ≠ cfg_dir root ++ ["server.cfg"] := by
    intro he
    have := List.append_cancel_left he
    simp at this
  simp only [create_hvh_config, h1]
  refine ⟨trivial, ?_, ?_⟩
  · rw [readFile, lookupFS_fsWrite_ne _ _ _ _ hne, lookupFS_fsWrite_self]
  · rw [readFile, lookupFS_fsWrite_self]

/-- Witness for claim C2 on a one-file filesystem. -/
theorem claim_c2_write_config_backup_witness :
    (create_hvh_config [(["csgo", "cfg", "server.cfg"], .file "old config" 7)] [] "new doc").2 = true
    ∧ readFile (create_hvh_config [(["csgo", "cfg", "server.cfg"], .file "old config" 7)] []
        "new doc").1 ["csgo", "cfg", "server.cfg.backup"] = some "old config"
    ∧ readFile (create_hvh_config [(["csgo", "cfg", "server.cfg"], .file "old config" 7)] []
        "new doc").1 ["csgo", "cfg", "server.cfg"] = some "new doc" := by
  have h := claim_c2_write_config_backup
    [(["csgo", "cfg", "server.cfg"], .file "old config" 7)] [] "new doc" "old config" 7
    (by decide)
  exact ⟨h.1, h.2.1, h.2.2⟩

/--
Claim C10: when `steam.inf` does not exist, `set_legacy_version` fails
and performs no filesystem writes: the state is returned unchanged, so
no descriptor and no backup file is created.
-/
theorem claim_c10_set_legacy_version_missing_file (fs : FS) (root : FsPath)
    (h : lookupFS fs (steam_inf root) = none) :
    set_legacy_version fs root = (fs, false) := by
  unfold set_legacy_version
  rw [h]

/-- Witness for claim C10 on the empty filesystem. -/
theorem claim_c10_set_legacy_version_missing_file_witness :
    set_legacy_version ([] : FS) ["srv"] = (([] : FS), false) :=
  claim_c10_set_legacy_version_missing_file [] ["srv"] (by decide)

end ServerConfigurator

/-- `system_detect.OSType`. -/
inductive OSType where
  | linux
  | windows
  | unknown
deriving DecidableEq

/-- `system_detect.PackageManager`. -/
inductive PackageManager where
  | pacman
  | yay
  | paru
  | apt
  | dnf
  | winget
  | choco
  | unknown
deriving DecidableEq

/-- `system_detect.SystemInfo`, restricted to the fields the installers
read (`os_name`, `os_version`, `distro_version` and `architecture` are
purely descriptive and never branched on). -/
structure SystemInfo where
  os_type : OSType
  distro : Option String
  package_managers : List PackageManager
deriving DecidableEq

/-- Extraction of an archive into a base directory: each entry of the
archive is written at its path relative to the base. -/
def extractInto (fs : FS) (base : FsPath) (entries : List (FsPath × Node)) : FS :=
  entries.foldl (fun a e => fsWrite a (base ++ e.1) e.2) fs

namespace SteamCMDInstaller

/-- The mutable state of a `SteamCMDInstaller` object: the detected
system information and the two path attributes, `steamcmd_dir` and
`steamcmd_exe` (the latter is reassigned by the Arch and Debian
strategies). -/
structure State where
  sys_info : SystemInfo
  steamcmd_dir : FsPath
  steamcmd_exe : FsPath
deriving DecidableEq

/-- `SteamCMDInstaller.__init__` (lines 21-32): Windows uses
`C:/steamcmd`, anything else `~/steamcmd`. -/
def mk (si : SystemInfo) (home : FsPath) : State :=
  if si.os_type = .windows then
    ⟨si, ["C:", "steamcmd"], ["C:", "steamcmd", "steamcmd.exe"]⟩
  else
    ⟨si, home ++ ["steamcmd"], home ++ ["steamcmd", "steamcmd.sh"]⟩

/-- Oracle for the effects that are external to the program: network
downloads, archive contents, and subprocess exit statuses.  `pkgEntries`
are the filesystem entries a successful package-manager installation
creates (absolute paths). -/
structure Ext where
  downloadOk : Bool
  extractOk : Bool
  archiveEntries : List (FsPath × Node)
  aurHelperOk : Bool
  gitCloneOk : Bool
  makepkgOk : Bool
  dpkgAddArchOk : Bool
  aptUpdateOk : Bool
  aptInstallOk : Bool
  pkgEntries : List (FsPath × Node)
deriving DecidableEq

/-- `SteamCMDInstaller.is_installed` (lines 34-39): the expected
executable path exists. -/
def is_installed (st : State) (fs : FS) : Bool :=
  pexists fs st.steamcmd_exe

/-- The fixed download URL of the generic Linux strategy. -/
def steamcmd_linux_url : String :=
  "https://steamcdn-a.akamaihd.net/client/installer/steamcmd_linux.tar.gz"

/-- The fixed download URL of the Windows strategy. -/
def steamcmd_windows_url : String :=
  "https://steamcdn-a.akamaihd.net/client/installer/steamcmd.zip"

/--
`SteamCMDInstaller._install_linux_generic` (lines 208-243): create the
steamcmd directory, download the fixed archive URL into it, extract the
tarball there, mark the binary executable (`chmod` raises — caught by
the handler, returning `False` — when the extracted archive did not
contain the executable; the permission-bit change itself is not tracked
by the abstract metadata), and unlink the tarball only on the success
path.
-/
def install_linux_generic (env : Ext) (st : State) (fs : FS) : State × FS × Bool :=
  let fs1 := fsMkdirP fs st.steamcmd_dir
  let tarPath := st.steamcmd_dir ++ ["steamcmd_linux.tar.gz"]
  if env.downloadOk then
    let fs2 := fsWrite fs1 tarPath (.file steamcmd_linux_url 0)
    if env.extractOk then
      let fs3 := extractInto fs2 st.steamcmd_dir env.archiveEntries
      if pexists fs3 st.steamcmd_exe then
        (st, fsErase fs3 tarPath, true)
      else
        (st, fs3, false)
    else (st, fs2, false)
  else (st, fs1, false)

/--
`SteamCMDInstaller._install_windows` (lines 245-278): create the
directory, download the fixed ZIP URL, extract it, unlink the ZIP and
return `True`.  (Note: unlike the Linux generic path there is no step
that touches the executable, so success does not re-check it.)
-/
def install_windows (env : Ext) (st : State) (fs : FS) : State × FS × Bool :=
  let fs1 := fsMkdirP fs st.steamcmd_dir
  let zipPath := st.steamcmd_dir ++ ["steamcmd.zip"]
  if env.downloadOk then
    let fs2 := fsWrite fs1 zipPath (.file steamcmd_windows_url 0)
    if env.extractOk then
      let fs3 := extractInto fs2 st.steamcmd_dir env.archiveEntries
      (st, fsErase fs3 zipPath, true)
    else (st, fs2, false)
  else (st, fs1, false)

/--
`SteamCMDInstaller._install_arch` (lines 83-145): prefer an AUR helper
(`yay`, then `paru`); on helper success the executable attribute is
repointed at `/usr/bin/steamcmd`.  Otherwise fall back to a manual AUR
build: `pacman -S base-devel` (failure only warned about), remove any
stale `/tmp/steamcmd-aur`, `git clone` the AUR package (modelled as
creating that directory; its inner files are irrelevant to the claims),
`makepkg -si`.
-/
def install_arch (env : Ext) (st : State) (fs : FS) : State × FS × Bool :=
  let helperFound := PackageManager.yay ∈ st.sys_info.package_managers
    ∨ PackageManager.paru ∈ st.sys_info.package_managers
  if helperFound ∧ env.aurHelperOk then
    ({ st with steamcmd_exe := ["usr", "bin", "steamcmd"] },
      extractInto fs [] env.pkgEntries, true)
  else
    let fs1 := fsRmtree fs ["tmp", "steamcmd-aur"]
    if env.gitCloneOk then
      let fs2 := fsWrite fs1 ["tmp", "steamcmd-aur"] .dir
      if env.makepkgOk then
        ({ st with steamcmd_exe := ["usr", "bin", "steamcmd"] },
          extractInto fs2 [] env.pkgEntries, true)
      else (st, fs2, false)
    else (st, fs1, false)

/--
`SteamCMDInstaller._install_debian` (lines 147-199): enable i386
(failure is fatal), optionally enable multiverse on Ubuntu (failure only
warned about), `apt update` (fatal on failure), `apt install steamcmd`;
on success the executable attribute becomes `/usr/games/steamcmd` if
that path exists, else `/usr/bin/steamcmd`.
-/
def install_debian (env : Ext) (st : State) (fs : FS) : State × FS × Bool :=
  if ¬ env.dpkgAddArchOk then (st, fs, false)
  else if ¬ env.aptUpdateOk then (st, fs, false)
  else if env.aptInstallOk then
    let fs1 := extractInto fs [] env.pkgEntries
    let exe1 : FsPath := ["usr", "games", "steamcmd"]
    let exe2 : FsPath := ["usr", "bin", "steamcmd"]
    ({ st with steamcmd_exe := if pexists fs1 exe1 then exe1 else exe2 }, fs1, true)
  else (st, fs, false)

/-- `SteamCMDInstaller._install_fedora` (lines 201-206): no native
package, delegates to the generic method. -/
def install_fedora (env : Ext) (st : State) (fs : FS) : State × FS × Bool :=
  install_linux_generic env st fs

/-- The Linux strategies of `_install_linux` (lines 62-81). -/
inductive LinuxInstallMethod where
  | archAUR
  | debianApt
  | fedoraRhel
  | generic
deriving DecidableEq

/-- The Arch-family distro identifiers of `_install_linux` line 67. -/
def archDistros : List String := ["arch", "manjaro", "endeavouros"]

/-- The Debian-family distro identifiers of `_install_linux` line 71. -/
def debianDistros : List String := ["ubuntu", "debian", "linuxmint", "pop"]

/-- The Fedora-family distro identifiers of `_install_linux` line 75. -/
def fedoraDistros : List String := ["fedora", "rhel", "centos"]

/-- The strategy selection of `_install_linux` (lines 62-81): the
if/elif chain over the distro identifier; an absent or unrecognized
identifier falls through to the generic method. -/
def linuxInstallMethod : Option String → LinuxInstallMethod
  | some d =>
      if d ∈ archDistros then .archAUR
      else if d ∈ debianDistros then .debianApt
      else if d ∈ fedoraDistros then .fedoraRhel
      else .generic
  | none => .generic

/-- `SteamCMDInstaller._install_linux` (lines 62-81): dispatch on the
selected strategy. -/
def install_linux (env : Ext) (st : State) (fs : FS) : State × FS × Bool :=
  match linuxInstallMethod st.sys_info.distro with
  | .archAUR => install_arch env st fs
  | .debianApt => install_debian env st fs
  | .fedoraRhel => install_fedora env st fs
  | .generic => install_linux_generic env st fs

/-- The outcome of one `install` call: the object state, the filesystem,
the returned boolean, and whether the already-installed early return
(the `skipped` branch of the spec's `StageResult`) was taken. -/
structure Result where
  st : State
  fs : FS
  ok : Bool
  skipped : Bool
deriving DecidableEq

/-- `SteamCMDInstaller.install` (lines 41-60): early return when
already installed, then dispatch on the OS type ("Unsupported OS" for
anything else). -/
def install (env : Ext) (st : State) (fs : FS) : Result :=
  if is_installed st fs then ⟨st, fs, true, true⟩
  else
    match st.sys_info.os_type with
    | .linux =>
        let r := install_linux env st fs
        ⟨r.1, r.2.1, r.2.2, false⟩
    | .windows =>
        let r := install_windows env st fs
        ⟨r.1, r.2.1, r.2.2, false⟩
    | .unknown => ⟨st, fs, false, false⟩

/--
Claim C5: for a Linux profile whose distribution identifier is not one
of the recognized distro names (or is absent), `_install_linux` selects
the generic archive strategy — download the fixed archive URL, extract
to the fixed directory, mark the binary executable — and never a
distro-specific package-manager strategy.
-/
theorem claim_c5_unrecognized_distro_generic (o : Option String)
    (h : ∀ d, o = some d → d ∉ archDistros ∧ d ∉ debianDistros ∧ d ∉ fedoraDistros) :
    linuxInstallMethod o = .generic
    ∧ ∀ env st fs, st.sys_info.os_type = .linux → st.sys_info.distro = o →
        install_linux env st fs = install_linux_generic env st fs := by
  have hm : linuxInstallMethod o = .generic := by
    cases o with
    | none => rfl
    | some d =>
        obtain ⟨h1, h2, h3⟩ := h d rfl
        simp [linuxInstallMethod, h1, h2, h3]
  refine ⟨hm, ?_⟩
  intro env st fs _ hd
  simp only [install_linux, hd, hm]

def c5Env : Ext := ⟨true, true, [], true, true, true, true, true, true, []⟩

def c5St : State :=
  ⟨⟨.linux, some "gentoo", []⟩, ["home", "steamcmd"], ["home", "steamcmd", "steamcmd.sh"]⟩

/-- Witness for claim C5 at the unrecognized distro `gentoo`. -/
theorem claim_c5_unrecognized_distro_generic_witness :
    linuxInstallMethod (some "gentoo") = .generic
    ∧ install_linux c5Env c5St [] = install_linux_generic c5Env c5St [] := by
  have h := claim_c5_unrecognized_distro_generic (some "gentoo")
    (by intro d hd; injection hd with h; subst h; decide)
  exact ⟨h.1, h.2 c5Env c5St [] rfl rfl⟩

def c4Env : Ext := ⟨false, false, [], false, false, false, false, false, false, []⟩

def c4State : State :=
  ⟨⟨.linux, some "gentoo", []⟩, ["home", "steamcmd"], ["home", "steamcmd", "steamcmd.sh"]⟩

def c4Fs : FS := [(["home", "steamcmd", "steamcmd.sh"], .file "exe" 0)]

/--
Counterexample to claim C4 as stated: it is not true that for every
state two consecutive `install` calls make the second one take the
already-installed branch.  On a Linux system with an unrecognized
distro whose download fails, the first call fails without creating the
executable, and the second call takes the full installation branch
again (`skipped = false`).
-/
theorem claim_c4_counterexample :
    (install c4Env (install c4Env c4State []).st (install c4Env c4State []).fs).skipped
      = false := by
  decide

/--
Claim C4 (amended): if the expected executable path already exists,
`install` returns success through the already-installed branch with the
state and filesystem completely unchanged (zero writes); consequently
the second of two consecutive calls takes the already-installed branch
and performs zero filesystem writes whenever the executable path exists
after the first call (in particular whenever the first call was itself
skipped) — but not for every state, as the counterexample shows.
-/
theorem claim_c4_install_idempotent (env env' : Ext) (st : State) (fs : FS) :
    (is_installed st fs = true → install env st fs = ⟨st, fs, true, true⟩)
    ∧ (is_installed (install env st fs).st (install env st fs).fs = true →
        install env' (install env st fs).st (install env st fs).fs =
          ⟨(install env st fs).st, (install env st fs).fs, true, true⟩) := by
  have h1 : ∀ (e : Ext) (s : State) (f : FS),
      is_installed s f = true → install e s f = ⟨s, f, true, true⟩ := by
    intro e s f hh
    simp [install, hh]
  exact ⟨h1 env st fs, h1 env' _ _⟩

/-- Witness for the amended claim C4: with the executable present, both
the first and the second call are skipped no-ops. -/
theorem claim_c4_install_idempotent_witness :
    install c4Env c4State c4Fs = ⟨c4State, c4Fs, true, true⟩
    ∧ install c4Env (install c4Env c4State c4Fs).st (install c4Env c4State c4Fs).fs =
        ⟨(install c4Env c4State c4Fs).st, (install c4Env c4State c4Fs).fs, true, true⟩ :=
  ⟨(claim_c4_install_idempotent c4Env c4Env c4State c4Fs).1 (by decide),
   (claim_c4_install_idempotent c4Env c4Env c4State c4Fs).2 (by decide)⟩

end SteamCMDInstaller

namespace MetamodSourcemodInstaller

/-- Oracle for the external effects of the Metamod/SourceMod installer:
download outcomes and the entries each archive extracts into the
`csgo` directory. -/
structure Ext where
  mmDownloadOk : Bool
  mmExtractOk : Bool
  mmEntries : List (FsPath × Node)
  smDownloadOk : Bool
  smExtractOk : Bool
  smEntries : List (FsPath × Node)
deriving DecidableEq

/-- `self.csgo_dir = csgo_install_dir / "csgo"`. -/
def csgo_dir (root : FsPath) : FsPath := root ++ ["csgo"]

/-- `self.addons_dir = self.csgo_dir / "addons"`. -/
def addons_dir (root : FsPath) : FsPath := root ++ ["csgo", "addons"]

/-- `MetamodSourcemodInstaller.check_prerequisites` (lines 47-53):
the CS:GO server directory exists. -/
def check_prerequisites (fs : FS) (root : FsPath) : Bool :=
  pexists fs (csgo_dir root)

/-- `MetamodSourcemodInstaller.is_metamod_installed` (lines 55-59):
`addons/metamod.vdf` or `addons/metamod` exists. -/
def is_metamod_installed (fs : FS) (root : FsPath) : Bool :=
  pexists fs (addons_dir root ++ ["metamod.vdf"]) || pexists fs (addons_dir root ++ ["metamod"])

/-- `MetamodSourcemodInstaller.is_sourcemod_installed` (lines 61-64):
`addons/sourcemod` exists. -/
def is_sourcemod_installed (fs : FS) (root : FsPath) : Bool :=
  pexists fs (addons_dir root ++ ["sourcemod"])

/-- `metamod_bin = self.addons_dir / "metamod" / "bin"` (line 142). -/
def metamod_bin (root : FsPath) : FsPath :=
  addons_dir root ++ ["metamod", "bin"]

/--
`MetamodSourcemodInstaller._fix_metamod_architecture` (lines 132-174):
if the metamod `bin` directory is absent, nothing to do; if `linux64`
exists, is a real directory (not a symlink) and `linux32` also exists,
remove the `linux64` subtree and create the relative symlink
`linux64 -> linux32`; if no `linux32` directory exists, this is only
logged and the fixup still returns `True`.  (The Python guard
`exists() and is_dir() and not is_symlink()` is modelled by the node at
`linux64` being exactly a directory; the `try/except` around the
`rmtree`/`symlink_to` pair, which returns `False` on an `OSError`, is
not modelled — filesystem mutation is assumed to succeed.)
-/
def fix_metamod_architecture (fs : FS) (root : FsPath) : FS × Bool :=
  if !(pexists fs (metamod_bin root)) then (fs, true)
  else if lookupFS fs (metamod_bin root ++ ["linux64"]) = some .dir then
    if pexists fs (metamod_bin root ++ ["linux32"]) then
      (fsWrite (fsRmtree fs (metamod_bin root ++ ["linux64"]))
        (metamod_bin root ++ ["linux64"]) (.symlink "linux32"), true)
    else (fs, true)
  else (fs, true)

/-- `temp_file = Path(f"/tmp/metamod{ext}")` (line 89, Linux). -/
def metamod_temp : FsPath := ["tmp", "metamod.tar.gz"]

/-- `temp_file = Path(f"/tmp/sourcemod{ext}")` (line 200, Linux). -/
def sourcemod_temp : FsPath := ["tmp", "sourcemod.tar.gz"]

/--
`MetamodSourcemodInstaller.install_metamod` (lines 66-130): check
prerequisites, the idempotency check (unless `force`), create the
addons directory, download the archive to `/tmp`, extract it into the
`csgo` directory, unlink the temp file, verify with
`is_metamod_installed`, and on success run the architecture fixup —
whose result is discarded (line 121) — before returning `True`.
-/
def install_metamod (env : Ext) (fs : FS) (root : FsPath) (force : Bool) : FS × Bool :=
  if !(check_prerequisites fs root) then (fs, false)
  else if is_metamod_installed fs root && !force then (fs, true)
  else
    let fs1 := fsMkdirP fs (addons_dir root)
    if !env.mmDownloadOk then (fs1, false)
    else
      let fs2 := fsWrite fs1 metamod_temp (.file "metamod-archive" 0)
      if !env.mmExtractOk then (fs2, false)
      else
        let fs3 := fsErase (extractInto fs2 (csgo_dir root) env.mmEntries) metamod_temp
        if is_metamod_installed fs3 root then
          ((fix_metamod_architecture fs3 root).1, true)
        else (fs3, false)

/--
`MetamodSourcemodInstaller.install_sourcemod` (lines 176-237): check
prerequisites, fail fast when Metamod is not installed (before any
download), idempotency check (unless `force`), then download, extract,
unlink and verify.
-/
def install_sourcemod (env : Ext) (fs : FS) (root : FsPath) (force : Bool) : FS × Bool :=
  if !(check_prerequisites fs root) then (fs, false)
  else if !(is_metamod_installed fs root) then (fs, false)
  else if is_sourcemod_installed fs root && !force then (fs, true)
  else if !env.smDownloadOk then (fs, false)
  else
    let fs1 := fsWrite fs sourcemod_temp (.file "sourcemod-archive" 0)
    if !env.smExtractOk then (fs1, false)
    else
      let fs2 := fsErase (extractInto fs1 (csgo_dir root) env.smEntries) sourcemod_temp
      if is_sourcemod_installed fs2 root then (fs2, true) else (fs2, false)

/-- `MetamodSourcemodInstaller.install_all` (lines 239-260): Metamod
first, then SourceMod, short-circuiting on the first failure. -/
def install_all (env : Ext) (fs : FS) (root : FsPath) (force : Bool) : FS × Bool :=
  let r := install_metamod env fs root force
  if !r.2 then (r.1, false)
  else
    let r2 := install_sourcemod env r.1 root force
    if !r2.2 then (r2.1, false) else (r2.1, true)

/--
Claim C6: when the base loader's installed-check fails,
`install_sourcemod` returns failure with the filesystem untouched (so
before any download or extraction); and `install_all` runs Metamod
first and, whenever that fails, returns that failure without running
the SourceMod step (its state is exactly the post-Metamod state).
-/
theorem claim_c6_sourcemod_dependency (root : FsPath) :
    (∀ env fs force, is_metamod_installed fs root = false →
        install_sourcemod env fs root force = (fs, false))
    ∧ (∀ env fs force fs1, install_metamod env fs root force = (fs1, false) →
        install_all env fs root force = (fs1, false)) := by
  constructor
  · intro env fs force h
    by_cases hp : check_prerequisites fs root = true
    · simp [install_sourcemod, hp, h]
    · simp [install_sourcemod, hp]
  · intro env fs force fs1 h
    simp [install_all, h]

def c6Env : Ext := ⟨false, false, [], false, false, []⟩

/-- Witness for claim C6: SourceMod install fails without writes when
Metamod is absent, and `install_all` stops after a failing Metamod
step. -/
theorem claim_c6_sourcemod_dependency_witness :
    install_sourcemod c6Env [(["csgo"], .dir)] [] false = ([(["csgo"], .dir)], false)
    ∧ install_all c6Env [] [] false = ([], false) := by
  have h := claim_c6_sourcemod_dependency []
  exact ⟨h.1 c6Env [(["csgo"], .dir)] false (by decide),
    h.2 c6Env [] false [] (by decide)⟩

/--
Claim C7: the architecture fixup after a Metamod install satisfies:
when `linux64` is a real directory and `linux32` also exists, the
`linux64` subtree is removed and replaced by a symlink to `linux32`
(everything outside that subtree untouched) and the fixup succeeds;
when only `linux64` exists, the filesystem is left completely untouched
and the fixup still reports success; and `install_metamod` reports
overall success whenever download, extraction and verification succeed,
independently of what the (discarded) fixup did.
-/
theorem claim_c7_architecture_fixup (root : FsPath) :
    (∀ fs, pexists fs (metamod_bin root) = true →
      lookupFS fs (metamod_bin root ++ ["linux64"]) = some .dir →
      pexists fs (metamod_bin root ++ ["linux32"]) = true →
        (fix_metamod_architecture fs root).2 = true
        ∧ lookupFS (fix_metamod_architecture fs root).1 (metamod_bin root ++ ["linux64"])
            = some (.symlink "linux32")
        ∧ (∀ p, isPref (metamod_bin root ++ ["linux64"]) p = true →
            p ≠ metamod_bin root ++ ["linux64"] →
            lookupFS (fix_metamod_architecture fs root).1 p = none)
        ∧ (∀ p, isPref (metamod_bin root ++ ["linux64"]) p = false →
            lookupFS (fix_metamod_architecture fs root).1 p = lookupFS fs p))
    ∧ (∀ fs, pexists fs (metamod_bin root) = true →
      lookupFS fs (metamod_bin root ++ ["linux64"]) = some .dir →
      pexists fs (metamod_bin root ++ ["linux32"]) = false →
        fix_metamod_architecture fs root = (fs, true))
    ∧ (∀ (env : Ext) fs force, check_prerequisites fs root = true →
      env.mmDownloadOk = true → env.mmExtractOk = true →
      is_metamod_installed (fsErase (extractInto
          (fsWrite (fsMkdirP fs (addons_dir root)) metamod_temp (.file "metamod-archive" 0))
          (csgo_dir root) env.mmEntries) metamod_temp) root = true →
        (install_metamod env fs root force).2 = true) := by
  refine ⟨?_, ?_, ?_⟩
  · intro fs h1 h2 h3
    have key : fix_metamod_architecture fs root =
        (fsWrite (fsRmtree fs (metamod_bin root ++ ["linux64"]))
          (metamod_bin root ++ ["linux64"]) (.symlink "linux32"), true) := by
      simp [fix_metamod_architecture, h1, h2, h3]
    refine ⟨by rw [key], ?_, ?_, ?_⟩
    · rw [key]
      exact lookupFS_fsWrite_self _ _ _
    · intro p hp hne
      rw [key]
      show lookupFS (fsWrite _ _ _) p = none
      rw [lookupFS_fsWrite_ne _ _ _ _ hne, lookupFS_fsRmtree_of_pref _ _ _ hp]
    · intro p hp
      have hne : p ≠ metamod_bin root ++ ["linux64"] := by
        intro he
        rw [he, isPref_refl] at hp
        cases hp
      rw [key]
      show lookupFS (fsWrite _ _ _) p = lookupFS fs p
      rw [lookupFS_fsWrite_ne _ _ _ _ hne, lookupFS_fsRmtree_of_not_pref _ _ _ hp]
  · intro fs h1 h2 h3
    simp [fix_metamod_architecture, h1, h2, h3]
  · intro env fs force hp hd he hv
    by_cases hskip : (is_metamod_installed fs root && !force) = true
    · simp [install_metamod, hp, hskip]
    · simp [install_metamod, hp, hskip, hd, he, hv]

def c7FsA : FS :=
  [(["csgo", "addons", "metamod", "bin"], .dir),
   (["csgo", "addons", "metamod", "bin", "linux64"], .dir),
   (["csgo", "addons", "metamod", "bin", "linux64", "metamod.so"], .file "so64" 1),
   (["csgo", "addons", "metamod", "bin", "linux32"], .dir)]

def c7FsB : FS :=
  [(["csgo", "addons", "metamod", "bin"], .dir),
   (["csgo", "addons", "metamod", "bin", "linux64"], .dir)]

def c7Env : Ext := ⟨true, true, [(["addons", "metamod.vdf"], .file "vdf" 0)], false, false, []⟩

/-- Witness for claim C7 at concrete filesystems: the replace case, the
only-64-bit case, and an `install_metamod` run reporting success. -/
theorem claim_c7_architecture_fixup_witness :
    (fix_metamod_architecture c7FsA []).2 = true
    ∧ lookupFS (fix_metamod_architecture c7FsA []).1
        ["csgo", "addons", "metamod", "bin", "linux64"] = some (.symlink "linux32")
    ∧ lookupFS (fix_metamod_architecture c7FsA []).1
        ["csgo", "addons", "metamod", "bin", "linux64", "metamod.so"] = none
    ∧ lookupFS (fix_metamod_architecture c7FsA []).1
        ["csgo", "addons", "metamod", "bin", "linux32"] =
        lookupFS c7FsA ["csgo", "addons", "metamod", "bin", "linux32"]
    ∧ fix_metamod_architecture c7FsB [] = (c7FsB, true)
    ∧ (install_metamod c7Env [(["csgo"], .dir)] [] false).2 = true := by
  have h := claim_c7_architecture_fixup []
  have ha := h.1 c7FsA (by decide) (by decide) (by decide)
  refine ⟨ha.1, ha.2.1, ?_, ?_, ?_, ?_⟩
  · exact ha.2.2.1 ["csgo", "addons", "metamod", "bin", "linux64", "metamod.so"]
      (by decide) (by decide)
  · exact ha.2.2.2 ["csgo", "addons", "metamod", "bin", "linux32"] (by decide)
  · exact h.2.1 c7FsB (by decide) (by decide) (by decide)
  · exact h.2.2 c7Env [(["csgo"], .dir)] false (by decide) (by decide) (by decide) (by decide)

end MetamodSourcemodInstaller

/-- Model of Python's `str.endswith`: the pattern's characters are a
suffix of the string's characters. -/
def strEndsWith (s suf : String) : Bool :=
  suf.data.isSuffixOf s.data

namespace PluginManager

/-- `self.addons_dir = csgo_install_dir / "csgo" / "addons"`. -/
def addons_dir (root : FsPath) : FsPath := root ++ ["csgo", "addons"]

/-- `self.sourcemod_dir = self.addons_dir / "sourcemod"`. -/
def sourcemod_dir (root : FsPath) : FsPath := root ++ ["csgo", "addons", "sourcemod"]

/-- `self.plugins_dir = self.sourcemod_dir / "plugins"`. -/
def plugins_dir (root : FsPath) : FsPath :=
  root ++ ["csgo", "addons", "sourcemod", "plugins"]

/-- `PluginManager.check_sourcemod_installed` (lines 34-40). -/
def check_sourcemod_installed (fs : FS) (root : FsPath) : Bool :=
  pexists fs (sourcemod_dir root)

/-- The regular files strictly below `base`, as
(path relative to `base`, content, metadata) triples — the
`plugin_addons.rglob("*")` iteration restricted by `item.is_file()`
(iteration order is the entry order of the filesystem model). -/
def filesUnder (fs : FS) (base : FsPath) : List (FsPath × String × Nat) :=
  fs.filterMap (fun e =>
    match e.2 with
    | .file c m =>
        if isPref base e.1 = true ∧ e.1 ≠ base then
          some (e.1.drop base.length, c, m)
        else none
    | _ => none)

/-- One iteration of the copy loop of `install_plugin_from_directory`
(lines 120-131): `dest_file.parent.mkdir(parents=True, exist_ok=True)`
followed by `shutil.copy2(item, dest_file)` — `copy2` preserves the
file metadata, and overwrites any existing destination. -/
def copyStep (dest : FsPath) (a : FS) (it : FsPath × String × Nat) : FS :=
  fsWrite (fsMkdirP a (dest ++ it.1).dropLast) (dest ++ it.1) (.file it.2.1 it.2.2)

/--
`PluginManager.install_plugin_from_directory` (lines 91-138): require
SourceMod to be installed and the staged tree to contain the `addons`
marker directory, then copy every file under the marker directory to
the corresponding relative path under the installation's `addons`
directory.  (The `try/except` returning `False` on an I/O error during
the copy loop is not modelled — filesystem mutation is assumed to
succeed.)
-/
def install_plugin_from_directory (fs : FS) (root plugin_dir : FsPath) : FS × Bool :=
  if !(check_sourcemod_installed fs root) then (fs, false)
  else if !(pexists fs (plugin_dir ++ ["addons"])) then (fs, false)
  else
    ((filesUnder fs (plugin_dir ++ ["addons"])).foldl (copyStep (addons_dir root)) fs, true)

/-- The `plugin_name` normalization shared by the plugin operations
(lines 193-194): append `.smx` unless already present. -/
def normalize_smx (name : String) : String :=
  if strEndsWith name ".smx" then name else name ++ ".smx"

/-- `PluginManager.disable_plugin` (lines 183-209): rename
`<name>.smx` to `<name>.smx.disabled`; error when the plugin file does
not exist. -/
def disable_plugin (fs : FS) (root : FsPath) (name : String) : FS × Bool :=
  let nm := normalize_smx name
  let plugin_file := plugins_dir root ++ [nm]
  let disabled_file := plugins_dir root ++ [nm ++ ".disabled"]
  if !(pexists fs plugin_file) then (fs, false)
  else (fsRename fs plugin_file disabled_file, true)

/-- `PluginManager.enable_plugin` (lines 211-237): rename
`<name>.smx.disabled` back to `<name>.smx`; error when the disabled
file does not exist. -/
def enable_plugin (fs : FS) (root : FsPath) (name : String) : FS × Bool :=
  let nm := normalize_smx name
  let disabled_file := plugins_dir root ++ [nm ++ ".disabled"]
  let plugin_file := plugins_dir root ++ [nm]
  if !(pexists fs disabled_file) then (fs, false)
  else (fsRename fs disabled_file plugin_file, true)

theorem fsErase_fsWrite_self (a : FS) (q : FsPath) (n : Node) :
    fsErase (fsWrite a q n) q = fsErase a q := by
  induction a with
  | nil => simp [fsWrite, fsErase]
  | cons e a ih =>
      by_cases h : e.1 = q <;> simp [fsWrite, fsErase, h, ih]

theorem fsErase_of_lookup_none (a : FS) (q : FsPath) (h : lookupFS a q = none) :
    fsErase a q = a := by
  induction a with
  | nil => rfl
  | cons e a ih =>
      by_cases h1 : e.1 = q
      · rw [lookupFS, if_pos h1] at h
        cases h
      · rw [lookupFS, if_neg h1] at h
        simp [fsErase, h1, ih h]

/--
Claim C9: when `<name>.smx` exists in the plugins directory and
`<name>.smx.disabled` does not, `disable_plugin` followed by
`enable_plugin` both succeed and the filesystem is restored to its
original contents (every path resolves to exactly what it did before).
-/
theorem claim_c9_disable_enable_roundtrip (fs : FS) (root : FsPath) (name : String) (n : Node)
    (hn : lookupFS fs (plugins_dir root ++ [normalize_smx name]) = some n)
    (hd : pexists fs (plugins_dir root ++ [normalize_smx name ++ ".disabled"]) = false) :
    (disable_plugin fs root name).2 = true
    ∧ (enable_plugin (disable_plugin fs root name).1 root name).2 = true
    ∧ ∀ p, lookupFS (enable_plugin (disable_plugin fs root name).1 root name).1 p =
        lookupFS fs p := by
  set nm := normalize_smx name with hnm
  set pf := plugins_dir root ++ [nm] with hpf
  set df := plugins_dir root ++ [nm ++ ".disabled"] with hdf
  have hne : df ≠ pf := by
    intro he
    have h1 := List.append_cancel_left (hdf ▸ hpf ▸ he)
    have h2 : nm ++ ".disabled" = nm := by simpa using h1
    have h3 := congrArg String.length h2
    simp [String.length_append] at h3
    exact absurd h3 (by decide)
  have hpe : pexists fs pf = true := by simp [pexists, hn]
  have hdis : disable_plugin fs root name = (fsWrite (fsErase fs pf) df n, true) := by
    simp only [disable_plugin, ← hnm, ← hpf, ← hdf, hpe, Bool.not_true, Bool.false_eq_true,
      if_false, fsRename, hn]
  have hlook : lookupFS (fsWrite (fsErase fs pf) df n) df = some n :=
    lookupFS_fsWrite_self _ _ _
  have hpe2 : pexists (fsWrite (fsErase fs pf) df n) df = true := by
    simp [pexists, hlook]
  have hnone : lookupFS fs df = none := by
    cases hcase : lookupFS fs df with
    | none => rfl
    | some x => simp [pexists, hcase] at hd
  have herase : fsErase (fsWrite (fsErase fs pf) df n) df = fsErase fs pf := by
    rw [fsErase_fsWrite_self]
    refine fsErase_of_lookup_none _ _ ?_
    rw [lookupFS_fsErase_ne fs pf df hne]
    exact hnone
  have hen : enable_plugin (disable_plugin fs root name).1 root name =
      (fsWrite (fsErase fs pf) pf n, true) := by
    rw [hdis]
    simp only [enable_plugin, ← hnm, ← hpf, ← hdf, hpe2, Bool.not_true, Bool.false_eq_true,
      if_false, fsRename, hlook, herase]
  refine ⟨by rw [hdis], by rw [hen], ?_⟩
  intro p
  rw [hen]
  by_cases hp : p = pf
  · subst hp
    rw [lookupFS_fsWrite_self, hn]
  · rw [lookupFS_fsWrite_ne _ _ _ _ hp, lookupFS_fsErase_ne _ _ _ hp]

/-- Witness for claim C9: disabling then enabling `x` (normalized to
`x.smx`) restores a concrete one-plugin filesystem. -/
theorem claim_c9_disable_enable_roundtrip_witness :
    (disable_plugin [(["csgo", "addons", "sourcemod", "plugins", "x.smx"], .file "P" 3)] [] "x").2
      = true
    ∧ (enable_plugin (disable_plugin
        [(["csgo", "addons", "sourcemod", "plugins", "x.smx"], .file "P" 3)] [] "x").1 [] "x").2
      = true
    ∧ lookupFS (enable_plugin (disable_plugin
        [(["csgo", "addons", "sourcemod", "plugins", "x.smx"], .file "P" 3)] [] "x").1 [] "x").1
        ["csgo", "addons", "sourcemod", "plugins", "x.smx"]
      = some (.file "P" 3) := by
  have h := claim_c9_disable_enable_roundtrip
    [(["csgo", "addons", "sourcemod", "plugins", "x.smx"], .file "P" 3)] [] "x"
    (.file "P" 3) (by decide) (by decide)
  refine ⟨h.1, h.2.1, ?_⟩
  rw [h.2.2 ["csgo", "addons", "sourcemod", "plugins", "x.smx"]]
  decide

theorem lookupFS_mem (fs : FS) (p : FsPath) (nd : Node) (h : lookupFS fs p = some nd) :
    (p, nd) ∈ fs := by
  induction fs with
  | nil => cases h
  | cons e fs ih =>
      rw [lookupFS] at h
      by_cases h1 : e.1 = p
      · rw [if_pos h1] at h
        injection h with h2
        have he : e = (p, nd) := by
          rcases e with ⟨k, v⟩
          simp only at h1 h2
          rw [h1, h2]
        rw [← he]
        exact List.mem_cons_self _ _
      · rw [if_neg h1] at h
        exact List.mem_cons_of_mem _ (ih h)

theorem append_ne_self_of_ne_nil (base rel : FsPath) (hrel : rel ≠ []) :
    base ++ rel ≠ base := by
  intro h
  have := congrArg List.length h
  simp [List.length_append] at this
  exact hrel this

theorem append_drop_of_isPref (base k : FsPath) (h : isPref base k = true) :
    base ++ k.drop base.length = k := by
  obtain ⟨t, ht⟩ := (isPref_iff base k).mp h
  subst ht
  rw [List.drop_left]

theorem isPref_dropLast (q l : FsPath) (h : isPref q l = true) (hne : q ≠ l) :
    isPref q l.dropLast = true := by
  obtain ⟨t, ht⟩ := (isPref_iff q l).mp h
  cases t with
  | nil =>
      rw [List.append_nil] at ht
      exact absurd ht hne
  | cons x xs =>
      subst ht
      rw [List.dropLast_append_of_ne_nil q (by simp)]
      exact isPref_append _ _

theorem mem_filesUnder (fs : FS) (base rel : FsPath) (c : String) (m : Nat)
    (h : lookupFS fs (base ++ rel) = some (.file c m)) (hrel : rel ≠ []) :
    (rel, c, m) ∈ filesUnder fs base := by
  refine List.mem_filterMap.mpr ⟨(base ++ rel, .file c m), lookupFS_mem fs _ _ h, ?_⟩
  show (if isPref base (base ++ rel) = true ∧ base ++ rel ≠ base
      then some ((base ++ rel).drop base.length, c, m) else none) = some (rel, c, m)
  rw [if_pos ⟨isPref_append base rel, append_ne_self_of_ne_nil base rel hrel⟩,
    List.drop_left]

theorem mem_map_fst_filesUnder (fs : FS) (base r : FsPath)
    (h : r ∈ (filesUnder fs base).map (fun it => it.1)) :
    base ++ r ∈ fs.map Prod.fst := by
  obtain ⟨it, hit, hr⟩ := List.mem_map.mp h
  obtain ⟨e, he, hfe⟩ := List.mem_filterMap.mp hit
  rcases e with ⟨k, nd⟩
  cases nd with
  | file c m =>
      by_cases hcond : isPref base k = true ∧ k ≠ base
      · rw [show (match (k, Node.file c m).2 with
            | Node.file c m =>
                if isPref base (k, Node.file c m).1 = true ∧ (k, Node.file c m).1 ≠ base
                then some (((k, Node.file c m).1).drop base.length, c, m) else none
            | _ => none) = (if isPref base k = true ∧ k ≠ base
                then some (k.drop base.length, c, m) else none) from rfl,
          if_pos hcond] at hfe
        injection hfe with h1
        subst h1
        simp only at hr
        rw [← hr]
        have : base ++ k.drop base.length = k := append_drop_of_isPref base k hcond.1
        rw [this]
        exact List.mem_map_of_mem Prod.fst he
      · simp only [hcond, if_neg, if_false] at hfe
        cases hfe
  | dir => cases hfe
  | symlink t => cases hfe

theorem nodup_rels_filesUnder (fs : FS) (base : FsPath)
    (h : (fs.map Prod.fst).Nodup) :
    ((filesUnder fs base).map (fun it => it.1)).Nodup := by
  induction fs with
  | nil => simp [filesUnder]
  | cons e fs ih =>
      rw [List.map_cons, List.nodup_cons] at h
      obtain ⟨hnot, hnd⟩ := h
      rw [filesUnder, List.filterMap_cons]
      rcases e with ⟨k, nd⟩
      cases nd with
      | file c m =>
          by_cases hcond : isPref base k = true ∧ k ≠ base
          · rw [show (match (k, Node.file c m).2 with
                | Node.file c m =>
                    if isPref base (k, Node.file c m).1 = true ∧ (k, Node.file c m).1 ≠ base
                    then some (((k, Node.file c m).1).drop base.length, c, m) else none
                | _ => none) = (if isPref base k = true ∧ k ≠ base
                    then some (k.drop base.length, c, m) else none) from rfl,
              if_pos hcond]
            rw [List.map_cons, List.nodup_cons]
            refine ⟨?_, ih hnd⟩
            intro hmem
            have hkey := mem_map_fst_filesUnder fs base _ hmem
            rw [append_drop_of_isPref base k hcond.1] at hkey
            exact hnot hkey
          · rw [show (match (k, Node.file c m).2 with
                | Node.file c m =>
                    if isPref base (k, Node.file c m).1 = true ∧ (k, Node.file c m).1 ≠ base
                    then some (((k, Node.file c m).1).drop base.length, c, m) else none
                | _ => none) = (if isPref base k = true ∧ k ≠ base
                    then some (k.drop base.length, c, m) else none) from rfl,
              if_neg hcond]
            exact ih hnd
      | dir => exact ih hnd
      | symlink t => exact ih hnd

theorem pexists_copyStep_mono (dest : FsPath) (a : FS) (it : FsPath × String × Nat)
    (p : FsPath) (h : pexists a p = true) : pexists (copyStep dest a it) p = true :=
  pexists_fsWrite_mono _ _ _ _ (pexists_fsMkdirP_mono _ _ _ h)

theorem pexists_foldl_copyStep_mono (its : List (FsPath × String × Nat)) (dest : FsPath)
    (a : FS) (p : FsPath) (h : pexists a p = true) :
    pexists (its.foldl (copyStep dest) a) p = true := by
  induction its generalizing a with
  | nil => exact h
  | cons hd tl ih => exact ih (copyStep dest a hd) (pexists_copyStep_mono dest a hd p h)

theorem lookupFS_foldl_copyStep_of_some (its : List (FsPath × String × Nat)) (dest : FsPath)
    (a : FS) (p : FsPath) (nd : Node) (h : lookupFS a p = some nd)
    (hnot : ∀ it ∈ its, dest ++ it.1 ≠ p) :
    lookupFS (its.foldl (copyStep dest) a) p = some nd := by
  induction its generalizing a with
  | nil => exact h
  | cons hd tl ih =>
      refine ih (copyStep dest a hd) ?_ (fun it hit => hnot it (List.mem_cons_of_mem _ hit))
      unfold copyStep
      rw [lookupFS_fsWrite_ne _ _ _ _ (fun he => hnot hd (List.mem_cons_self _ _) he.symm)]
      exact lookupFS_fsMkdirP_of_some _ _ _ _ h

theorem lookupFS_foldl_copyStep_self (its : List (FsPath × String × Nat)) (dest : FsPath)
    (it : FsPath × String × Nat) :
    ∀ a : FS, (its.map (fun x => x.1)).Nodup → it ∈ its →
    lookupFS (its.foldl (copyStep dest) a) (dest ++ it.1) = some (.file it.2.1 it.2.2) := by
  induction its with
  | nil =>
      intro a _ hit
      cases hit
  | cons hd tl ih =>
      intro a hnd hit
      rcases List.mem_cons.mp hit with h | h
      · subst h
        refine lookupFS_foldl_copyStep_of_some tl dest (copyStep dest a it) _ _ ?_ ?_
        · unfold copyStep
          exact lookupFS_fsWrite_self _ _ _
        · intro it' hit' he
          have h1 : it'.1 = it.1 := List.append_cancel_left he
          have hmem : it.1 ∈ tl.map (fun x => x.1) := h1 ▸ List.mem_map_of_mem _ hit'
          exact (List.nodup_cons.mp hnd).1 hmem
      · exact ih (copyStep dest a hd) (List.nodup_cons.mp hnd).2 h

theorem pexists_foldl_copyStep_dirs (its : List (FsPath × String × Nat)) (dest : FsPath)
    (it : FsPath × String × Nat)
    (q : FsPath) (hq : q ≠ []) (hpre : isPref q (dest ++ it.1) = true)
    (hne : q ≠ dest ++ it.1) :
    ∀ a : FS, it ∈ its → pexists (its.foldl (copyStep dest) a) q = true := by
  induction its with
  | nil =>
      intro a hit
      cases hit
  | cons hd tl ih =>
      intro a hit
      rcases List.mem_cons.mp hit with h | h
      · subst h
        refine pexists_foldl_copyStep_mono tl dest (copyStep dest a it) q ?_
        unfold copyStep
        refine pexists_fsWrite_mono _ _ _ _ ?_
        exact pexists_fsMkdirP_of_pref _ _ _ hq (isPref_dropLast q (dest ++ it.1) hpre hne)
      · exact ih (copyStep dest a hd) h

/--
Claim C8: given a staged plugin tree containing the `addons` marker
directory (and an installed SourceMod), the merge succeeds and every
file under the marker directory is copied — content and metadata
preserved, existing destination files overwritten — to the
corresponding relative path under the installation's `addons`
directory, with all intermediate directories of each destination
present afterwards.  (The filesystem's entry list is assumed free of
duplicate keys, as on a real filesystem.)
-/
theorem claim_c8_plugin_merge (fs : FS) (root plugin_dir : FsPath)
    (hnd : (fs.map Prod.fst).Nodup)
    (hsm : check_sourcemod_installed fs root = true)
    (hmk : pexists fs (plugin_dir ++ ["addons"]) = true) :
    (install_plugin_from_directory fs root plugin_dir).2 = true
    ∧ ∀ rel c m, rel ≠ [] →
        lookupFS fs (plugin_dir ++ ["addons"] ++ rel) = some (.file c m) →
        lookupFS (install_plugin_from_directory fs root plugin_dir).1
            (addons_dir root ++ rel) = some (.file c m)
        ∧ ∀ q, q ≠ [] → isPref q (addons_dir root ++ rel) = true →
            q ≠ addons_dir root ++ rel →
            pexists (install_plugin_from_directory fs root plugin_dir).1 q = true := by
  have hres : install_plugin_from_directory fs root plugin_dir =
      ((filesUnder fs (plugin_dir ++ ["addons"])).foldl (copyStep (addons_dir root)) fs,
        true) := by
    simp [install_plugin_from_directory, hsm, hmk]
  refine ⟨by rw [hres], ?_⟩
  intro rel c m hrel hsrc
  have hmem : (rel, c, m) ∈ filesUnder fs (plugin_dir ++ ["addons"]) :=
    mem_filesUnder fs _ rel c m hsrc hrel
  constructor
  · rw [hres]
    exact lookupFS_foldl_copyStep_self _ _ (rel, c, m) fs
      (nodup_rels_filesUnder fs _ hnd) hmem
  · intro q hq hpre hne
    rw [hres]
    exact pexists_foldl_copyStep_dirs _ _ (rel, c, m) q hq hpre hne fs hmem

def c8Fs : FS :=
  [(["srv", "csgo", "addons", "sourcemod"], .dir),
   (["plg", "addons"], .dir),
   (["plg", "addons", "sourcemod", "plugins", "a.smx"], .file "AA" 5)]

/-- Witness for claim C8: a staged tree with one plugin file is merged
into the target `addons` directory, metadata intact, with the
intermediate `plugins` directory created. -/
theorem claim_c8_plugin_merge_witness :
    (install_plugin_from_directory c8Fs ["srv"] ["plg"]).2 = true
    ∧ lookupFS (install_plugin_from_directory c8Fs ["srv"] ["plg"]).1
        ["srv", "csgo", "addons", "sourcemod", "plugins", "a.smx"] = some (.file "AA" 5)
    ∧ pexists (install_plugin_from_directory c8Fs ["srv"] ["plg"]).1
        ["srv", "csgo", "addons", "sourcemod", "plugins"] = true := by
  have h := claim_c8_plugin_merge c8Fs ["srv"] ["plg"] (by decide) (by decide) (by decide)
  have h2 := h.2 ["sourcemod", "plugins", "a.smx"] "AA" 5 (by decide) (by decide)
  exact ⟨h.1, h2.1,
    h2.2 ["srv", "csgo", "addons", "sourcemod", "plugins"] (by decide) (by decide) (by decide)⟩

end PluginManager

namespace InstallPlugins

/-- How the `git clone` subprocess of `clone_from_github` ends
(scripts/install_plugins.py, lines 92-119): exit code 0, a non-zero
exit, a `TimeoutExpired` after 60 seconds, a `FileNotFoundError`
because git is not installed, or any other exception. -/
inductive CloneOutcome where
  | ok
  | exitNonzero
  | timedOut
  | gitMissing
  | otherError
deriving DecidableEq

/--
`clone_from_github` (lines 74-119): a fresh temporary staging directory
is created, then the repository is cloned into it.  Returns the clone
result (`none` for failure, as the Python function returns `None`)
together with whether the staging directory still exists when the
function returns: on success it is handed to the caller; on every
failure path (`returncode != 0`, timeout, missing git, other exception)
the function removes it with `shutil.rmtree(..., ignore_errors=True)`
before returning `None`.
-/
def clone_from_github (o : CloneOutcome) : Option Unit × Bool :=
  match o with
  | .ok => (some (), true)
  | .exitNonzero => (none, false)
  | .timedOut => (none, false)
  | .gitMissing => (none, false)
  | .otherError => (none, false)

/-- Oracle for one `install_plugin` attempt: the clone outcome, whether
the staged tree contains the `addons` marker directory, whether
SourceMod is installed in the target, and whether the merge copy loop
completes. -/
structure Env where
  cloneOutcome : CloneOutcome
  treeHasMarker : Bool
  smInstalled : Bool
  mergeOk : Bool
deriving DecidableEq

/-- `install_from_directory` (lines 122-146) followed by
`PluginManager.install_plugin_from_directory`: the directory must
exist, contain the `addons` marker, SourceMod must be installed, and
the copy loop must not raise.  Only the success boolean matters to
claim C3. -/
def install_from_directory (dirPresent : Bool) (env : Env) : Bool :=
  if !dirPresent then false
  else if !env.treeHasMarker then false
  else if !env.smInstalled then false
  else env.mergeOk

/--
`install_plugin` (lines 149-186) for a source already classified by
`is_github_url`: for a remote reference, clone into the temporary
staging directory and install from it; the `finally` block removes the
staging directory if it still exists.  Returns the success flag and
whether the staging directory exists after the call returns (`false`
throughout for a local source, which never creates one).
-/
def install_plugin (isRemote : Bool) (localDirPresent : Bool) (env : Env) : Bool × Bool :=
  if isRemote then
    match clone_from_github env.cloneOutcome with
    | (none, tmp) => (false, tmp)
    | (some _, _) => (install_from_directory true env, false)
  else (install_from_directory localDirPresent env, false)

/--
Claim C3: for every remote-reference plugin source — whatever the
clone outcome (failure, timeout, missing git, other error, success)
and whatever the validation and merge results — the temporary staging
directory does not exist after `install_plugin` returns.
-/
theorem claim_c3_staging_dir_removed (env : Env) (localDirPresent : Bool) :
    (install_plugin true localDirPresent env).2 = false := by
  rcases env with ⟨o, marker, sm, merge⟩
  cases o <;> rfl

end InstallPlugins

end VileHvH
